import Mathlib

/-!
# Dependency-graph detector (`detector/depgraph.go`)

A shallow embedding of `getDependencyGraph`, `makeDepMaps`, `extractGoFiles`,
`isRelativeDep` and `convertRelPath`, followed by the properties established
about them.

Go strings are modelled as lists of characters (`Str`).  Go maps are modelled as
association lists with unique keys; a map is iterated in the order in which its
keys were first written (Go leaves the order unspecified; every statement below
is about membership, never about order).
-/

namespace Detector

/-- A Go string, as the list of its characters. -/
abbrev Str := List Char

/-! ## String helpers (`strings` package) -/

/-- Go `strings.HasPrefix`. -/
def hasPrefix (s p : Str) : Bool := p.isPrefixOf s

/-- Go `strings.HasSuffix`. -/
def hasSuffix (s p : Str) : Bool := p.reverse.isPrefixOf s.reverse

/-- Go `strings.TrimPrefix`. -/
def trimPrefix (s p : Str) : Str :=
  if hasPrefix s p then s.drop p.length else s

/-- Go `strings.TrimSuffix`. -/
def trimSuffix (s p : Str) : Str :=
  if hasSuffix s p then s.take (s.length - p.length) else s

/-- Go `strings.Contains`. -/
def strContains : Str → Str → Bool
  | [], sub => sub.isEmpty
  | c :: cs, sub => sub.isPrefixOf (c :: cs) || strContains cs sub

/-- Go slice expression `s[n:]`: `none` stands for the run-time panic
"slice bounds out of range" raised when `n > len(s)`. -/
def sliceFrom (s : Str) (n : Nat) : Option Str :=
  if n ≤ s.length then some (s.drop n) else none

/-! ## Path helpers (`path/filepath` package) -/

/-- Splits a path at every `/`; the result always has one more element than the
path has separators. -/
def splitSlash : Str → List Str
  | [] => [[]]
  | c :: cs =>
    if c = '/' then [] :: splitSlash cs
    else
      match splitSlash cs with
      | [] => [[c]]
      | seg :: rest => (c :: seg) :: rest

/-- Joins path elements with `/` (Go `strings.Join(elem, "/")`). -/
def joinSlash : List Str → Str
  | [] => []
  | [s] => s
  | s :: t :: rest => s ++ '/' :: joinSlash (t :: rest)

/-- One step of the lexical clean-up: the stack holds the elements kept so far,
innermost first. Empty elements and `.` are dropped; `..` removes the previous
element when there is one to remove, is dropped at the root of a rooted path and
is kept at the front of a relative path. -/
def cleanStep (rooted : Bool) (stack : List Str) (seg : Str) : List Str :=
  if seg = [] then stack
  else if seg = ['.'] then stack
  else if seg = ['.', '.'] then
    match stack with
    | [] => if rooted then [] else [seg]
    | top :: below => if top = ['.', '.'] then seg :: top :: below else below
  else seg :: stack

/-- Modelled from the spec: `filepath.Clean` of the Go standard library (not part
of the sources), which the spec describes as collapsing the `..`/`.` segments of
a path. The empty path becomes `.`; a rooted path keeps its leading `/`. -/
def filepathClean (path : Str) : Str :=
  if path = [] then ['.']
  else
    let rooted := hasPrefix path ['/']
    let kept := ((splitSlash path).foldl (cleanStep rooted) []).reverse
    if rooted then '/' :: joinSlash kept
    else if kept = [] then ['.'] else joinSlash kept

/-- Modelled from the spec: `filepath.Join` of the Go standard library (not part
of the sources): leading empty elements are ignored, the rest is joined with `/`
and cleaned; with no non-empty element the result is the empty string. -/
def filepathJoin : List Str → Str
  | [] => []
  | e :: rest => if e = [] then filepathJoin rest else filepathClean (joinSlash (e :: rest))

/-! ## `isRelativeDep` and `convertRelPath` -/

/-- Source `isRelativeDep`: the dependency starts with `./` or `../`. -/
def isRelativeDep (path : Str) : Bool :=
  hasPrefix path "./".toList || hasPrefix path "../".toList

/-- Source `convertRelPath`: converts a path relative to a module into a path
relative to the repository root; a string that is not relative is returned
unchanged. -/
def convertRelPath (repoPath modulePath dependency : Str) : Str :=
  if !isRelativeDep dependency then dependency
  else
    let fullModulePath := filepathJoin [repoPath, modulePath]
    let fullDependencyPath := filepathJoin [fullModulePath, dependency]
    let trimmedPath := trimPrefix fullDependencyPath repoPath
    if trimmedPath.length = 0 then ".".toList
    else '.' :: trimmedPath

/-! ## Go maps, the name registry and the graph -/

/-- A Go `map[string][]T`, as an association list with unique keys. -/
abbrev GoMap (α : Type) := List (Str × List α)

/-- Go map read `m[k]`: a missing key reads as the nil slice. -/
def mapGet {α : Type} : GoMap α → Str → List α
  | [], _ => []
  | (k', v) :: rest, k => if k' = k then v else mapGet rest k

/-- Go map write `m[k] = v`. -/
def mapSet {α : Type} : GoMap α → Str → List α → GoMap α
  | [], k, v => [(k, v)]
  | (k', v') :: rest, k, v => if k' = k then (k, v) :: rest else (k', v') :: mapSet rest k v

/-- The keys present in a Go map. -/
def mapKeys {α : Type} (m : GoMap α) : List Str := m.map Prod.fst

/-- Modelled from the spec: the Name Registry (`bimap.BiMap`, an external package
not part of the sources): a bijective set of (local path, canonical name)
bindings. -/
structure BiMap where
  pairs : List (Str × Str)
deriving DecidableEq

/-- Modelled from the spec: `bimap.NewBiMap`, the empty registry. -/
def BiMap.NewBiMap : BiMap := ⟨[]⟩

/-- Modelled from the spec: `BiMap.Insert` establishes the binding in both
directions; the reference behaviour tolerates duplicate inserts silently, so a
binding that conflicts on either side is overwritten. -/
def BiMap.Insert (b : BiMap) (k v : Str) : BiMap :=
  ⟨(k, v) :: b.pairs.filter (fun e => !(decide (e.1 = k)) && !(decide (e.2 = v)))⟩

/-- Modelled from the spec: forward lookup `BiMap.Get` (local → canonical),
answering "not found" with `none`. -/
def BiMap.Get (b : BiMap) (k : Str) : Option Str :=
  (b.pairs.find? (fun e => decide (e.1 = k))).map Prod.snd

/-- Modelled from the spec: reverse lookup `BiMap.GetInverse`
(canonical → local), answering "not found" with `none`. -/
def BiMap.GetInverse (b : BiMap) (v : Str) : Option Str :=
  (b.pairs.find? (fun e => decide (e.2 = v))).map Prod.fst

/-- Modelled from the spec: the directed-graph collaborator (`depgraph.Graph`, an
external package not part of the sources): the set of its edges
(dependent, dependency). -/
structure Graph where
  edges : List (Str × Str)
deriving DecidableEq

/-- The rule by which the graph refuses an insertion. The spec leaves cycle
handling to the graph and only says that an insertion can fail, so the rule is a
parameter of the model. -/
abbrev Refusal := Graph → Str → Str → Bool

/-- A refusal rule that rejects exactly the self-loops. -/
def refuseSelfLoop : Refusal := fun _ child parent => decide (child = parent)

/-- Modelled from the spec: `depgraph.New`, the graph without edges. -/
def Graph.New : Graph := ⟨[]⟩

/-- Modelled from the spec: `Graph.DependOn`, idempotent edge insertion;
`none` is the insertion failure. -/
def Graph.DependOn (refuse : Refusal) (g : Graph) (child parent : Str) : Option Graph :=
  if refuse g child parent then none
  else if (child, parent) ∈ g.edges then some g
  else some ⟨g.edges ++ [(child, parent)]⟩

/-- Modelled from the spec: `Graph.Dependencies`, the query "direct dependencies
of node N". -/
def Graph.Dependencies (g : Graph) (child : Str) : List Str :=
  (g.edges.filter (fun e => decide (e.1 = child))).map Prod.snd

/-! ## Inputs: manifests and source trees -/

/-- The parts of a parsed `go.mod` the code reads: `Module.Mod.Path`, the
`Require[i].Mod.Path` and the `Replace[i].New.Path`. -/
structure GoMod where
  modPath : Str
  require : List Str
  replace : List Str

/-- The outcome of `os.ReadFile` and `modfile.Parse` on a member's `go.mod`. -/
inductive ModFile where
  | unreadable
  | unparsable
  | parsed (f : GoMod)

/-- A source file kept by the walk: its full name and the import literals
(`s.Path.Value`, quotes included) the imports-only parser returns for it. -/
structure GoFile where
  mk :: (name : Str) (imports : List Str)
deriving DecidableEq

/-- An entry of a directory listing (`os.ReadDir`), in listing order; a directory
carries its own listing (empty when it cannot be read). -/
inductive DirEntry where
  | file (name : Str) (imports : List Str)
  | dir (name : Str) (entries : List DirEntry)

/-- A `use` directive of `go.work` together with what the file system holds for
it: the member's `go.mod` and the listing of its source directory. -/
structure Use where
  path : Str
  goMod : ModFile
  entries : List DirEntry

/-- The outcome of locating, reading and parsing `go.work`. -/
inductive WorkFile where
  | missing
  | unreadable
  | unparsable
  | parsed (uses : List Use)

/-- The environment of a run: the process working directory and `go.work`. -/
structure Workspace where
  pwd : Str
  goWork : WorkFile

/-- The failures of a run; `sliceOutOfRange` is the run-time panic of a slice
expression. -/
inductive Err where
  | workFileNotFound
  | workFileUnreadable
  | workFileUnparsable
  | modFileUnreadable (modulePath : Str)
  | modFileUnparsable (modulePath : Str)
  | addDependency (src dst : Str)
  | sliceOutOfRange
deriving DecidableEq

deriving instance DecidableEq for Except

/-! ## `extractGoFiles` -/

mutual
/-- Source `extractGoFiles`, the loop over the listing of directory `pwd`. -/
def extractGoFiles (pwd currentModule currentPackage : Str) :
    List DirEntry → GoMap GoFile → GoMap GoFile
  | [], goFiles => goFiles
  | entry :: ls, goFiles =>
    extractGoFiles pwd currentModule currentPackage ls
      (extractEntry pwd currentModule currentPackage entry goFiles)
/-- Source `extractGoFiles`, the loop body for one entry. -/
def extractEntry (pwd currentModule currentPackage : Str) :
    DirEntry → GoMap GoFile → GoMap GoFile
  | DirEntry.dir name entries, goFiles =>
    extractGoFiles (pwd ++ '/' :: name) currentModule name entries goFiles
  | DirEntry.file name imports, goFiles =>
    if strContains name ".go".toList then
      mapSet goFiles ('/' :: currentPackage)
        (mapGet goFiles ('/' :: currentModule ++ '/' :: currentPackage)
          ++ [⟨pwd ++ '/' :: name, imports⟩])
    else goFiles
end

/-! ## `makeDepMaps` -/

/-- Source `IncludedDependenciesConfig`. -/
structure IncludedDependenciesConfig where
  includeModules : Bool
  includePackages : Bool

/-- The five maps `makeDepMaps` returns. -/
structure DepMaps where
  dependencies : GoMap Str
  dependencyNames : BiMap
  packageDependencies : GoMap Str
  packageNames : BiMap
  packagesPerModule : GoMap Str
deriving DecidableEq

/-- The maps at the start of `makeDepMaps`: all empty. -/
def DepMaps.init : DepMaps :=
  ⟨[], BiMap.NewBiMap, [], BiMap.NewBiMap, []⟩

/-- Source `makeDepMaps`, the `includeModules` block: registers the module name
and appends every `require` and every `replace` target, normalised by
`convertRelPath`, to the module's dependency list. -/
def addModule (repoPath modulePath : Str) (f : GoMod) (st : DepMaps) : DepMaps :=
  let names := st.dependencyNames.Insert modulePath f.modPath
  let add := fun (deps : GoMap Str) (target : Str) =>
    mapSet deps modulePath (mapGet deps modulePath ++ [convertRelPath repoPath modulePath target])
  let deps1 := f.require.foldl add st.dependencies
  let deps2 := f.replace.foldl add deps1
  { st with dependencyNames := names, dependencies := deps2 }

/-- Source `makeDepMaps`, the choice of `localPackageName` for a `goFiles` key. -/
def localPackageName (modulePath1 keyQuestionMark : Str) : Str :=
  if modulePath1 = keyQuestionMark then keyQuestionMark else modulePath1 ++ keyQuestionMark

/-- Source `makeDepMaps`, the choice of `fullPackageName` for a `goFiles` key. -/
def fullPackageName (moduleModPath keyQuestionMark : Str) : Str :=
  if strContains moduleModPath keyQuestionMark then moduleModPath
  else moduleModPath ++ keyQuestionMark

/-- Source `makeDepMaps`, the body of `for _, s := range f.Imports`. -/
def addImport (localName fullName : Str) (st : DepMaps) (s : Str) : DepMaps :=
  { st with
    packageNames := st.packageNames.Insert localName fullName,
    packageDependencies :=
      mapSet st.packageDependencies fullName (mapGet st.packageDependencies fullName ++ [s]) }

/-- Source `makeDepMaps`, the body of `for _, file := range intPackage`. -/
def addFile (localName fullName : Str) (st : DepMaps) (file : GoFile) : DepMaps :=
  file.imports.foldl (addImport localName fullName) st

/-- Source `makeDepMaps`, the body of `for keyQuestionMark, intPackage := range goFiles`;
`modulePath1` is `module.Path[1:]`. -/
def addPackage (modulePath modulePath1 moduleModPath : Str) (st : DepMaps)
    (entry : Str × List GoFile) : DepMaps :=
  let localName := localPackageName modulePath1 entry.1
  let fullName := fullPackageName moduleModPath entry.1
  let st1 := { st with
    packagesPerModule :=
      mapSet st.packagesPerModule modulePath (mapGet st.packagesPerModule modulePath ++ [localName]) }
  entry.2.foldl (addFile localName fullName) st1

/-- Source `makeDepMaps`, the body of `for _, module := range uses`. -/
def makeDepMapsModule (repoPath pwd : Str) (config : IncludedDependenciesConfig)
    (st : DepMaps) (module : Use) : Except Err DepMaps :=
  match module.goMod with
  | ModFile.unreadable => Except.error (Err.modFileUnreadable module.path)
  | ModFile.unparsable => Except.error (Err.modFileUnparsable module.path)
  | ModFile.parsed f =>
    let st1 := if config.includeModules then addModule repoPath module.path f st else st
    if config.includePackages then
      match sliceFrom module.path 1, sliceFrom module.path 2 with
      | some modulePath1, some modulePath2 =>
        let goFiles := extractGoFiles (pwd ++ modulePath1) modulePath2 modulePath2 module.entries []
        Except.ok (goFiles.foldl (addPackage module.path modulePath1 f.modPath) st1)
      | _, _ => Except.error Err.sliceOutOfRange
    else Except.ok st1

/-- Source `makeDepMaps`, the loop over the `use` directives from a given state. -/
def makeDepMapsFrom (repoPath pwd : Str) (config : IncludedDependenciesConfig) :
    List Use → DepMaps → Except Err DepMaps
  | [], st => Except.ok st
  | module :: uses, st =>
    match makeDepMapsModule repoPath pwd config st module with
    | Except.error e => Except.error e
    | Except.ok st1 => makeDepMapsFrom repoPath pwd config uses st1

/-- Source `makeDepMaps`. -/
def makeDepMaps (repoPath pwd : Str) (uses : List Use) (config : IncludedDependenciesConfig) :
    Except Err DepMaps :=
  makeDepMapsFrom repoPath pwd config uses DepMaps.init

/-! ## `getDependencyGraph` -/

/-- The configuration `getDependencyGraph` passes to `makeDepMaps`. -/
def bothIncluded : IncludedDependenciesConfig := ⟨true, true⟩

/-- Insertion into the module graph with the error wrapping of the source. -/
def dependOnOrFail (refuse : Refusal) (g : Graph) (modulePath target dep : Str) :
    Except Err Graph :=
  match g.DependOn refuse modulePath target with
  | some g1 => Except.ok g1
  | none => Except.error (Err.addDependency modulePath dep)

/-- Source `getDependencyGraph`, the body of `for _, dep := range moduleDeps`. -/
def addModuleDep (refuse : Refusal) (moduleNames : BiMap) (modulePath : Str) (g : Graph)
    (dep : Str) : Except Err Graph :=
  let renamed : Except Err Graph :=
    match moduleNames.GetInverse dep with
    | some renamedDep => dependOnOrFail refuse g modulePath renamedDep dep
    | none => Except.ok g
  match renamed with
  | Except.error e => Except.error e
  | Except.ok g1 =>
    if isRelativeDep dep then dependOnOrFail refuse g1 modulePath dep dep
    else Except.ok g1

/-- Source `getDependencyGraph`, the loop over one module's dependency list. -/
def addModuleDeps (refuse : Refusal) (moduleNames : BiMap) (modulePath : Str) :
    List Str → Graph → Except Err Graph
  | [], g => Except.ok g
  | dep :: deps, g =>
    match addModuleDep refuse moduleNames modulePath g dep with
    | Except.error e => Except.error e
    | Except.ok g1 => addModuleDeps refuse moduleNames modulePath deps g1

/-- Source `getDependencyGraph`, the first loop over `parsedWorkFile.Use`: builds
the module graph `depGraph`. -/
def buildModuleGraph (refuse : Refusal) (maps : DepMaps) : List Use → Graph → Except Err Graph
  | [], g => Except.ok g
  | module :: uses, g =>
    match addModuleDeps refuse maps.dependencyNames module.path
        (mapGet maps.dependencies module.path) g with
    | Except.error e => Except.error e
    | Except.ok g1 => buildModuleGraph refuse maps uses g1

/-- The loops `for dep := range graph.Dependencies(n) { m[n] = append(m[n], dep) }`. -/
def appendDeps (m : GoMap Str) (node : Str) (deps : List Str) : GoMap Str :=
  deps.foldl (fun acc dep => mapSet acc node (mapGet acc node ++ [dep])) m

/-- Source `getDependencyGraph`, the second loop: the map `moduleDeps` read off
the finished module graph. -/
def collectModuleDeps (depGraph : Graph) (uses : List Use) : GoMap Str :=
  uses.foldl (fun acc module => appendDeps acc module.path (depGraph.Dependencies module.path)) []

/-- Strips the quote characters of an import literal, as
`strings.TrimPrefix(dep, "\"")` followed by `strings.TrimSuffix(dep, "\"")`. -/
def trimQuotes (dep : Str) : Str :=
  trimSuffix (trimPrefix dep ['"']) ['"']

/-- Source `getDependencyGraph`, the body of
`for _, dep := range modulePackageDependencies[renamedPackage]`; the error of
`DependOn` is assigned and never read. -/
def addPackageDep (refuse : Refusal) (packageNames : BiMap) (modPackage : Str) (g : Graph)
    (dep : Str) : Graph :=
  match packageNames.GetInverse (trimQuotes dep) with
  | some renamedDep =>
    match g.DependOn refuse modPackage renamedDep with
    | some g1 => g1
    | none => g
  | none => g

/-- Source `getDependencyGraph`, the body of
`for _, modPackage := range packagesInModule`, on the pair
(`packageDepGraph`, `packageDeps`). -/
def processPackage (refuse : Refusal) (maps : DepMaps) (st : Graph × GoMap Str)
    (modPackage : Str) : Graph × GoMap Str :=
  let g1 :=
    match maps.packageNames.Get modPackage with
    | some renamedPackage =>
      (mapGet maps.packageDependencies renamedPackage).foldl
        (addPackageDep refuse maps.packageNames modPackage) st.1
    | none => st.1
  (g1, appendDeps st.2 modPackage (g1.Dependencies modPackage))

/-- Source `getDependencyGraph`, the third loop over `parsedWorkFile.Use`. -/
def processModule (refuse : Refusal) (maps : DepMaps) (st : Graph × GoMap Str)
    (module : Use) : Graph × GoMap Str :=
  (mapGet maps.packagesPerModule module.path).foldl (processPackage refuse maps) st

/-- Source `getDependencyGraph`: the package map built from the maps of
`makeDepMaps`. -/
def buildPackageDeps (refuse : Refusal) (maps : DepMaps) (uses : List Use) : GoMap Str :=
  (uses.foldl (processModule refuse maps) (Graph.New, [])).2

/-- Source `getDependencyGraph`. The module graph is built first and its failure
aborts the run; the value returned is the package map `packageDeps`. -/
def getDependencyGraph (refuse : Refusal) (repoPath : Str) (ws : Workspace) :
    Except Err (GoMap Str) :=
  match ws.goWork with
  | WorkFile.missing => Except.error Err.workFileNotFound
  | WorkFile.unreadable => Except.error Err.workFileUnreadable
  | WorkFile.unparsable => Except.error Err.workFileUnparsable
  | WorkFile.parsed uses =>
    match makeDepMaps repoPath ws.pwd uses bothIncluded with
    | Except.error e => Except.error e
    | Except.ok maps =>
      match buildModuleGraph refuse maps uses Graph.New with
      | Except.error e => Except.error e
      | Except.ok _ => Except.ok (buildPackageDeps refuse maps uses)

/-- The module graph `depGraph` that `getDependencyGraph` builds from the `use`
directives before it turns to the packages. -/
def moduleGraphOf (refuse : Refusal) (repoPath pwd : Str) (uses : List Use) : Except Err Graph :=
  match makeDepMaps repoPath pwd uses bothIncluded with
  | Except.error e => Except.error e
  | Except.ok maps => buildModuleGraph refuse maps uses Graph.New

/-! ## Example workspaces -/

/-- Member `./lib` (module `example.com/lib`) with package `util`, whose one
file imports `fmt`. -/
def libMember : Use :=
  ⟨"./lib".toList, ModFile.parsed ⟨"example.com/lib".toList, [], []⟩,
    [DirEntry.dir "util".toList [DirEntry.file "util.go".toList ["\"fmt\"".toList]]]⟩

/-- Member `./svc` (module `example.com/svc`, requiring `example.com/lib`) with
package `handler`, whose one file imports `example.com/lib/util`. -/
def svcMember : Use :=
  ⟨"./svc".toList, ModFile.parsed ⟨"example.com/svc".toList, ["example.com/lib".toList], []⟩,
    [DirEntry.dir "handler".toList
      [DirEntry.file "handler.go".toList ["\"example.com/lib/util\"".toList]]]⟩

/-- The workspace `/ws` of the concrete scenario: members `./svc` and `./lib`. -/
def exampleWorkspace : Workspace :=
  ⟨"/ws".toList, WorkFile.parsed [svcMember, libMember]⟩

/-- Member `./lib` as `libMember`, except that the file of package `util` has
no import. -/
def libMemberNoImports : Use :=
  ⟨"./lib".toList, ModFile.parsed ⟨"example.com/lib".toList, [], []⟩,
    [DirEntry.dir "util".toList [DirEntry.file "util.go".toList []]]⟩

/-- The scenario workspace with `libMemberNoImports` in place of `libMember`. -/
def noImportsWorkspace : Workspace :=
  ⟨"/ws".toList, WorkFile.parsed [svcMember, libMemberNoImports]⟩

/-- Member `./a` (module `example.com/a`) requiring the external module
`example.com/x` and replacing it by the directory `../notlisted`, which `go.work`
does not list. -/
def replaceMember : Use :=
  ⟨"./a".toList,
    ModFile.parsed ⟨"example.com/a".toList, ["example.com/x".toList], ["../notlisted".toList]⟩,
    []⟩

/-- Member `./svc` with module name `example.com/org/svc`, a file at the module
root and a sub-directory `org`. -/
def orgMember : Use :=
  ⟨"./svc".toList, ModFile.parsed ⟨"example.com/org/svc".toList, [], []⟩,
    [DirEntry.file "main.go".toList ["\"fmt\"".toList],
     DirEntry.dir "org".toList [DirEntry.file "org.go".toList ["\"fmt\"".toList]]]⟩

/-- Member `./m` (module `example.com/m`) with the two directories `a/util` and
`b/util`, one source file in each. -/
def twoUtilMember : Use :=
  ⟨"./m".toList, ModFile.parsed ⟨"example.com/m".toList, [], []⟩,
    [DirEntry.dir "a".toList
       [DirEntry.dir "util".toList [DirEntry.file "x.go".toList ["\"fmt\"".toList]]],
     DirEntry.dir "b".toList
       [DirEntry.dir "util".toList [DirEntry.file "y.go".toList ["\"os\"".toList]]]]⟩

/-- Member `./m` (module `example.com/m`) with one directory `p` holding the two
source files `a.go` (importing `x`) and `b.go` (importing `y`). -/
def twoFilesMember : Use :=
  ⟨"./m".toList, ModFile.parsed ⟨"example.com/m".toList, [], []⟩,
    [DirEntry.dir "p".toList
       [DirEntry.file "a.go".toList ["\"x\"".toList],
        DirEntry.file "b.go".toList ["\"y\"".toList]]]⟩

/-- The workspace root itself as a member, written `.` in `go.work`, with a
readable `go.mod` and one source file. -/
def rootMember : Use :=
  ⟨".".toList, ModFile.parsed ⟨"example.com/root".toList, [], []⟩,
    [DirEntry.file "main.go".toList ["\"fmt\"".toList]]⟩

/-- The maps `makeDepMaps` computes for the scenario workspace. -/
def exampleMaps : DepMaps :=
  ⟨[("./svc".toList, ["example.com/lib".toList])],
   ⟨[("./lib".toList, "example.com/lib".toList), ("./svc".toList, "example.com/svc".toList)]⟩,
   [("example.com/svc/handler".toList, ["\"example.com/lib/util\"".toList]),
    ("example.com/lib/util".toList, ["\"fmt\"".toList])],
   ⟨[("/lib/util".toList, "example.com/lib/util".toList),
     ("/svc/handler".toList, "example.com/svc/handler".toList)]⟩,
   [("./svc".toList, ["/svc/handler".toList]), ("./lib".toList, ["/lib/util".toList])]⟩

/-! ## Predicates used in the statements -/

/-- The package imports only external packages, as the code sees it: none of
the import literals recorded under the package's canonical name is, with its
quotes trimmed, a canonical name bound in the package registry. -/
def importsOnlyExternal (maps : DepMaps) (modPackage : Str) : Bool :=
  match maps.packageNames.Get modPackage with
  | none => true
  | some renamedPackage =>
    (mapGet maps.packageDependencies renamedPackage).all
      (fun dep => (maps.packageNames.GetInverse (trimQuotes dep)).isNone)

/-- What justifies an edge of the module graph: a dependency of the source module
that the registry resolves to the target, or a relative dependency that is the
target itself. -/
def ModuleEdgeOrigin (maps : DepMaps) (e : Str × Str) : Prop :=
  ∃ dep ∈ mapGet maps.dependencies e.1,
    maps.dependencyNames.GetInverse dep = some e.2 ∨ (isRelativeDep dep = true ∧ e.2 = dep)

/-- What justifies an edge of the package graph: the source package is bound to a
canonical name, and one of the import literals recorded under that name, with
its quotes trimmed, is bound to the target. -/
def PackageEdgeOrigin (maps : DepMaps) (e : Str × Str) : Prop :=
  ∃ c, maps.packageNames.Get e.1 = some c
    ∧ ∃ dep ∈ mapGet maps.packageDependencies c,
        maps.packageNames.GetInverse (trimQuotes dep) = some e.2

/-- Every local path bound in the package registry is listed among the packages
of some `use` directive. -/
def PackageNamesListed (uses : List Use) (st : DepMaps) : Prop :=
  ∀ e ∈ st.packageNames.pairs, ∃ u ∈ uses, e.1 ∈ mapGet st.packagesPerModule u.path

/-- Every package listed for a member path starts with `module.Path[1:]`, the
member path without its first character. -/
def PackagesUnderModule (st : DepMaps) : Prop :=
  ∀ m l, l ∈ mapGet st.packagesPerModule m → hasPrefix l (m.drop 1) = true

/-- The invariant of the third loop of `getDependencyGraph`: every edge of the
package graph has an origin, every key of the package map is a listed package
with an outgoing edge, and every listed dependency is an edge. -/
def PackagePhaseInv (uses : List Use) (maps : DepMaps) (st : Graph × GoMap Str) : Prop :=
  (∀ e ∈ st.1.edges, PackageEdgeOrigin maps e)
  ∧ (∀ k ∈ mapKeys st.2,
      (∃ u ∈ uses, k ∈ mapGet maps.packagesPerModule u.path) ∧ ∃ t, (k, t) ∈ st.1.edges)
  ∧ (∀ k v, v ∈ mapGet st.2 k → (k, v) ∈ st.1.edges)

/-! ## Evaluations -/

/-- C2: with a package `./lib/util` whose file imports nothing, the import of
`example.com/lib/util` by `./svc/handler` yields no entry at all: the returned
map is empty, so `./lib/util` is not listed among the dependencies of
`./svc/handler`. -/
theorem C2_edge_lost_when_target_imports_nothing :
    getDependencyGraph refuseSelfLoop "/ws".toList noImportsWorkspace = Except.ok []
    ∧ (makeDepMaps "/ws".toList "/ws".toList [svcMember, libMemberNoImports] bothIncluded).map
        (fun maps => (mapGet maps.packagesPerModule "./lib".toList,
          maps.packageNames.GetInverse "example.com/lib/util".toList))
      = Except.ok (["/lib/util".toList], none) := by
  decide

/-- C7: for member `./svc` with canonical name `example.com/org/svc`, the package
in sub-directory `org` is given the canonical name `example.com/org/svc` of the
module itself, not `example.com/org/svc/org`. -/
theorem C7_subdirectory_named_like_module_segment :
    fullPackageName "example.com/org/svc".toList "/org".toList = "example.com/org/svc".toList
    ∧ (makeDepMaps "/ws".toList "/ws".toList [orgMember] bothIncluded).map
        (fun maps => (mapGet maps.packagesPerModule "./svc".toList,
          mapKeys maps.packageDependencies))
      = Except.ok (["/svc".toList, "/svc/org".toList], ["example.com/org/svc".toList]) := by
  decide

/-- C8: for member `./m` with the directories `a/util` and `b/util`, the walk
produces the single key `/util` and the member gets the single package
`/m/util`. -/
theorem C8_same_named_directories_merge :
    mapKeys (extractGoFiles "/ws/m".toList "m".toList "m".toList twoUtilMember.entries [])
      = ["/util".toList]
    ∧ (makeDepMaps "/ws".toList "/ws".toList [twoUtilMember] bothIncluded).map
        (fun maps => mapGet maps.packagesPerModule "./m".toList)
      = Except.ok ["/m/util".toList] := by
  decide

/-- C9: for directory `p` with the files `a.go` (importing `x`) and `b.go`
(importing `y`), the package keeps the last file only and its raw import list is
`["y"]`: the import of `a.go` is missing. -/
theorem C9_only_last_file_kept :
    extractGoFiles "/ws/m".toList "m".toList "m".toList twoFilesMember.entries []
      = [("/p".toList, [⟨"/ws/m/p/b.go".toList, ["\"y\"".toList]⟩])]
    ∧ (makeDepMaps "/ws".toList "/ws".toList [twoFilesMember] bothIncluded).map
        (fun maps => mapGet maps.packageDependencies "example.com/m/p".toList)
      = Except.ok ["\"y\"".toList] := by
  decide

/-- C10: for the member path `.` the slice `module.Path[2:]` is out of range and
`makeDepMaps` stops with the slicing failure. -/
theorem C10_root_member_slice_out_of_range :
    sliceFrom ".".toList 1 = some [] ∧ sliceFrom ".".toList 2 = none
    ∧ (makeDepMaps "/ws".toList "/ws".toList [rootMember] bothIncluded).map
        (fun maps => maps.packagesPerModule)
      = Except.error Err.sliceOutOfRange := by
  decide

/-! ## Lemmas on maps, the registry and the graph -/

theorem foldl_invariant {α β : Type} (P : β → Prop) (f : β → α → β) (l : List α)
    (h : ∀ b a, a ∈ l → P b → P (f b a)) : ∀ b, P b → P (l.foldl f b) := by
  induction l with
  | nil => intro b hb; exact hb
  | cons a t ih =>
    intro b hb
    simp only [List.foldl_cons]
    exact ih (fun b' a' ha' hb' => h b' a' (List.mem_cons_of_mem _ ha') hb') _
      (h b a (List.mem_cons_self _ _) hb)

theorem hasPrefix_append (r x : Str) : hasPrefix (r ++ x) r = true := by
  unfold hasPrefix
  exact List.isPrefixOf_iff_prefix.mpr (List.prefix_append r x)

theorem mapGet_mapSet_self {α : Type} (m : GoMap α) (k : Str) (v : List α) :
    mapGet (mapSet m k v) k = v := by
  induction m with
  | nil => simp [mapSet, mapGet]
  | cons e rest ih =>
    obtain ⟨k', v'⟩ := e
    by_cases h : k' = k
    · simp [mapSet, mapGet, h]
    · simp [mapSet, mapGet, h, ih]

theorem mapGet_mapSet_ne {α : Type} (m : GoMap α) (k k' : Str) (v : List α) (hne : k' ≠ k) :
    mapGet (mapSet m k v) k' = mapGet m k' := by
  induction m with
  | nil => simp [mapSet, mapGet, Ne.symm hne]
  | cons e rest ih =>
    obtain ⟨k'', v''⟩ := e
    by_cases h : k'' = k
    · subst h
      simp [mapSet, mapGet, Ne.symm hne]
    · by_cases h2 : k'' = k'
      · subst h2
        simp [mapSet, mapGet, h]
      · simp [mapSet, mapGet, h, h2, ih]

theorem mem_mapKeys_mapSet {α : Type} (m : GoMap α) (k x : Str) (v : List α) :
    x ∈ mapKeys (mapSet m k v) ↔ x = k ∨ x ∈ mapKeys m := by
  induction m with
  | nil => simp [mapSet, mapKeys]
  | cons e rest ih =>
    obtain ⟨k', v'⟩ := e
    by_cases h : k' = k
    · subst h
      simp [mapSet, mapKeys]
    · simp only [mapKeys] at ih
      simp only [mapSet, h, if_false, mapKeys, List.map_cons, List.mem_cons, ih]
      tauto

theorem mapGet_of_not_mem_mapKeys {α : Type} (m : GoMap α) (k : Str) (h : k ∉ mapKeys m) :
    mapGet m k = [] := by
  induction m with
  | nil => rfl
  | cons e rest ih =>
    obtain ⟨k', v'⟩ := e
    simp only [mapKeys, List.map_cons, List.mem_cons, not_or] at h
    have h1 : k' ≠ k := fun hk => h.1 hk.symm
    simp only [mapGet, h1, if_false]
    exact ih h.2

theorem mapGet_append_mono {α : Type} (m : GoMap α) (k k' : Str) (x y : α)
    (h : y ∈ mapGet m k') : y ∈ mapGet (mapSet m k (mapGet m k ++ [x])) k' := by
  by_cases hk : k' = k
  · subst hk
    rw [mapGet_mapSet_self]
    exact List.mem_append_left _ h
  · rw [mapGet_mapSet_ne _ _ _ _ hk]
    exact h

theorem mem_mapKeys_appendDeps (node : Str) (deps : List Str) :
    ∀ (m : GoMap Str) (x : Str), x ∈ mapKeys (appendDeps m node deps) →
      (x = node ∧ deps ≠ []) ∨ x ∈ mapKeys m := by
  induction deps with
  | nil => intro m x hx; exact Or.inr hx
  | cons d ds ih =>
    intro m x hx
    have hx2 : x ∈ mapKeys (appendDeps (mapSet m node (mapGet m node ++ [d])) node ds) := hx
    rcases ih _ _ hx2 with h | h
    · exact Or.inl ⟨h.1, by simp⟩
    · rcases (mem_mapKeys_mapSet _ _ _ _).mp h with h2 | h2
      · exact Or.inl ⟨h2, by simp⟩
      · exact Or.inr h2

theorem mapGet_appendDeps_self (node : Str) (deps : List Str) :
    ∀ m : GoMap Str, mapGet (appendDeps m node deps) node = mapGet m node ++ deps := by
  induction deps with
  | nil => intro m; simp [appendDeps]
  | cons d ds ih =>
    intro m
    have h : appendDeps m node (d :: ds)
        = appendDeps (mapSet m node (mapGet m node ++ [d])) node ds := rfl
    rw [h, ih, mapGet_mapSet_self]
    simp

theorem mapGet_appendDeps_ne (node k : Str) (deps : List Str) (hne : k ≠ node) :
    ∀ m : GoMap Str, mapGet (appendDeps m node deps) k = mapGet m k := by
  induction deps with
  | nil => intro m; rfl
  | cons d ds ih =>
    intro m
    have h : appendDeps m node (d :: ds)
        = appendDeps (mapSet m node (mapGet m node ++ [d])) node ds := rfl
    rw [h, ih, mapGet_mapSet_ne _ _ _ _ hne]

theorem BiMap.mem_Insert (b : BiMap) (k v : Str) (e : Str × Str)
    (h : e ∈ (b.Insert k v).pairs) : e = (k, v) ∨ e ∈ b.pairs := by
  simp only [BiMap.Insert, List.mem_cons, List.mem_filter] at h
  rcases h with h | h
  · exact Or.inl h
  · exact Or.inr h.1

theorem BiMap.GetInverse_mem (b : BiMap) (v l : Str) (h : b.GetInverse v = some l) :
    (l, v) ∈ b.pairs := by
  unfold BiMap.GetInverse at h
  cases hf : b.pairs.find? (fun e => decide (e.2 = v)) with
  | none => simp [hf] at h
  | some e =>
    rw [hf] at h
    simp only [Option.map_some', Option.some.injEq] at h
    have h1 := List.mem_of_find?_eq_some hf
    have h2 := List.find?_some hf
    simp only [decide_eq_true_eq] at h2
    obtain ⟨a, c⟩ := e
    simp only at h h2
    subst h; subst h2
    exact h1

theorem Graph.DependOn_edges (refuse : Refusal) (g g1 : Graph) (child parent : Str)
    (h : g.DependOn refuse child parent = some g1) :
    ∀ e ∈ g1.edges, e ∈ g.edges ∨ e = (child, parent) := by
  unfold Graph.DependOn at h
  split at h
  · exact absurd h (by simp)
  · split at h
    · simp only [Option.some.injEq] at h
      subst h
      intro e he
      exact Or.inl he
    · simp only [Option.some.injEq] at h
      subst h
      intro e he
      simp only [List.mem_append, List.mem_singleton] at he
      exact he

theorem Graph.mem_Dependencies (g : Graph) (child t : Str) :
    t ∈ g.Dependencies child ↔ (child, t) ∈ g.edges := by
  unfold Graph.Dependencies
  simp only [List.mem_map, List.mem_filter, decide_eq_true_eq]
  constructor
  · rintro ⟨⟨a, b⟩, ⟨hmem, ha⟩, hb⟩
    simp only at ha hb
    subst ha; subst hb
    exact hmem
  · intro h
    exact ⟨(child, t), ⟨h, rfl⟩, rfl⟩

/-! ## Invariants of `makeDepMaps` -/

theorem makeDepMapsModule_invariant (repoPath pwd : Str) (config : IncludedDependenciesConfig)
    (Inv : DepMaps → Prop) (module : Use)
    (hmod : ∀ st f, Inv st → Inv (addModule repoPath module.path f st))
    (hpkg : ∀ st p1 mp entry, sliceFrom module.path 1 = some p1 → Inv st →
      Inv (addPackage module.path p1 mp st entry))
    (st st1 : DepMaps) (hst : Inv st)
    (h : makeDepMapsModule repoPath pwd config st module = Except.ok st1) : Inv st1 := by
  unfold makeDepMapsModule at h
  cases hgm : module.goMod with
  | unreadable => simp [hgm] at h
  | unparsable => simp [hgm] at h
  | parsed f =>
    simp only [hgm] at h
    have hst1 : Inv (if config.includeModules = true then addModule repoPath module.path f st
        else st) := by
      split
      · exact hmod st f hst
      · exact hst
    split at h
    · split at h
      · rename_i p1 p2 hs1 hs2
        simp only [Except.ok.injEq] at h
        subst h
        exact foldl_invariant Inv _ _ (fun b a _ hb => hpkg b _ _ a hs1 hb) _ hst1
      · exact absurd h (by simp)
    · simp only [Except.ok.injEq] at h
      subst h
      exact hst1

theorem makeDepMapsFrom_invariant (repoPath pwd : Str) (config : IncludedDependenciesConfig)
    (Inv : DepMaps → Prop) (uses : List Use)
    (hstep : ∀ st module st1, module ∈ uses → Inv st →
      makeDepMapsModule repoPath pwd config st module = Except.ok st1 → Inv st1) :
    ∀ us : List Use, (∀ u ∈ us, u ∈ uses) → ∀ st st1 : DepMaps, Inv st →
      makeDepMapsFrom repoPath pwd config us st = Except.ok st1 → Inv st1 := by
  intro us
  induction us with
  | nil =>
    intro _ st st1 hst h
    simp only [makeDepMapsFrom, Except.ok.injEq] at h
    subst h
    exact hst
  | cons u rest ih =>
    intro hsub st st1 hst h
    unfold makeDepMapsFrom at h
    cases hm : makeDepMapsModule repoPath pwd config st u with
    | error e => simp [hm] at h
    | ok st2 =>
      simp only [hm] at h
      exact ih (fun x hx => hsub x (List.mem_cons_of_mem _ hx)) st2 st1
        (hstep st u st2 (hsub u (List.mem_cons_self _ _)) hst hm) h

theorem addFile_dependencyNames (localName fullName : Str) (file : GoFile) (st : DepMaps) :
    (addFile localName fullName st file).dependencyNames = st.dependencyNames := by
  unfold addFile
  exact foldl_invariant (fun s : DepMaps => s.dependencyNames = st.dependencyNames)
    (addImport localName fullName) file.imports
    (fun b a _ hb => by simpa [addImport] using hb) st rfl

theorem addPackage_dependencyNames (modulePath p1 mp : Str) (st : DepMaps)
    (entry : Str × List GoFile) :
    (addPackage modulePath p1 mp st entry).dependencyNames = st.dependencyNames := by
  unfold addPackage
  exact foldl_invariant (fun s : DepMaps => s.dependencyNames = st.dependencyNames)
    (addFile (localPackageName p1 entry.1) (fullPackageName mp entry.1)) entry.2
    (fun b a _ hb => (addFile_dependencyNames _ _ a b).trans hb) _ rfl

/-- Every local path bound in the module registry is the path of a `use`
directive. -/
theorem makeDepMaps_dependencyNames (repoPath pwd : Str) (config : IncludedDependenciesConfig)
    (uses : List Use) (maps : DepMaps)
    (h : makeDepMaps repoPath pwd uses config = Except.ok maps) :
    ∀ e ∈ maps.dependencyNames.pairs, ∃ u ∈ uses, u.path = e.1 := by
  refine makeDepMapsFrom_invariant repoPath pwd config
    (fun st => ∀ e ∈ st.dependencyNames.pairs, ∃ u ∈ uses, u.path = e.1) uses ?_ uses
    (fun _ hu => hu) DepMaps.init maps ?_ h
  · intro st module st1 hmem hst hm
    refine makeDepMapsModule_invariant repoPath pwd config
      (fun st => ∀ e ∈ st.dependencyNames.pairs, ∃ u ∈ uses, u.path = e.1)
      module ?_ ?_ st st1 hst hm
    · intro s f hs e he
      have he2 : e ∈ (s.dependencyNames.Insert module.path f.modPath).pairs := he
      rcases BiMap.mem_Insert _ _ _ _ he2 with h1 | h1
      · exact ⟨module, hmem, by rw [h1]⟩
      · exact hs e h1
    · intro s p1 mp entry _ hs e he
      rw [addPackage_dependencyNames] at he
      exact hs e he
  · intro e he
    simp [DepMaps.init, BiMap.NewBiMap] at he

/-! ## The module graph -/

theorem dependOnOrFail_edges (refuse : Refusal) (g g1 : Graph) (modulePath target dep : Str)
    (h : dependOnOrFail refuse g modulePath target dep = Except.ok g1) :
    ∀ e ∈ g1.edges, e ∈ g.edges ∨ e = (modulePath, target) := by
  unfold dependOnOrFail at h
  cases hd : g.DependOn refuse modulePath target with
  | none => simp [hd] at h
  | some g2 =>
    simp only [hd, Except.ok.injEq] at h
    subst h
    exact Graph.DependOn_edges refuse g g2 modulePath target hd

theorem addModuleDep_origin (refuse : Refusal) (maps : DepMaps) (modulePath dep : Str)
    (hdep : dep ∈ mapGet maps.dependencies modulePath) (g g1 : Graph)
    (hg : ∀ e ∈ g.edges, ModuleEdgeOrigin maps e)
    (h : addModuleDep refuse maps.dependencyNames modulePath g dep = Except.ok g1) :
    ∀ e ∈ g1.edges, ModuleEdgeOrigin maps e := by
  unfold addModuleDep at h
  simp only at h
  have hmid : ∀ g2 : Graph,
      (match maps.dependencyNames.GetInverse dep with
        | some renamedDep => dependOnOrFail refuse g modulePath renamedDep dep
        | none => Except.ok g) = Except.ok g2 →
      ∀ e ∈ g2.edges, ModuleEdgeOrigin maps e := by
    intro g2 h2
    cases hinv : maps.dependencyNames.GetInverse dep with
    | none =>
      simp only [hinv, Except.ok.injEq] at h2
      subst h2
      exact hg
    | some renamedDep =>
      simp only [hinv] at h2
      intro e he
      rcases dependOnOrFail_edges _ _ _ _ _ _ h2 e he with h3 | h3
      · exact hg e h3
      · subst h3
        exact ⟨dep, hdep, Or.inl hinv⟩
  cases hr : (match maps.dependencyNames.GetInverse dep with
        | some renamedDep => dependOnOrFail refuse g modulePath renamedDep dep
        | none => Except.ok g) with
  | error err => simp [hr] at h
  | ok g2 =>
    simp only [hr] at h
    have hg2 := hmid g2 hr
    split at h
    · rename_i hrel
      intro e he
      rcases dependOnOrFail_edges _ _ _ _ _ _ h e he with h3 | h3
      · exact hg2 e h3
      · subst h3
        exact ⟨dep, hdep, Or.inr ⟨hrel, rfl⟩⟩
    · simp only [Except.ok.injEq] at h
      subst h
      exact hg2

theorem addModuleDeps_origin (refuse : Refusal) (maps : DepMaps) (modulePath : Str) :
    ∀ deps : List Str, (∀ dep ∈ deps, dep ∈ mapGet maps.dependencies modulePath) →
      ∀ g g1 : Graph, (∀ e ∈ g.edges, ModuleEdgeOrigin maps e) →
        addModuleDeps refuse maps.dependencyNames modulePath deps g = Except.ok g1 →
        ∀ e ∈ g1.edges, ModuleEdgeOrigin maps e := by
  intro deps
  induction deps with
  | nil =>
    intro _ g g1 hg h
    simp only [addModuleDeps, Except.ok.injEq] at h
    subst h
    exact hg
  | cons dep rest ih =>
    intro hsub g g1 hg h
    unfold addModuleDeps at h
    cases hd : addModuleDep refuse maps.dependencyNames modulePath g dep with
    | error err => simp [hd] at h
    | ok g2 =>
      simp only [hd] at h
      exact ih (fun x hx => hsub x (List.mem_cons_of_mem _ hx)) g2 g1
        (addModuleDep_origin refuse maps modulePath dep (hsub dep (List.mem_cons_self _ _))
          g g2 hg hd) h

theorem buildModuleGraph_origin (refuse : Refusal) (maps : DepMaps) :
    ∀ (uses : List Use) (g g1 : Graph), (∀ e ∈ g.edges, ModuleEdgeOrigin maps e) →
      buildModuleGraph refuse maps uses g = Except.ok g1 →
      ∀ e ∈ g1.edges, ModuleEdgeOrigin maps e := by
  intro uses
  induction uses with
  | nil =>
    intro g g1 hg h
    simp only [buildModuleGraph, Except.ok.injEq] at h
    subst h
    exact hg
  | cons u rest ih =>
    intro g g1 hg h
    unfold buildModuleGraph at h
    cases hd : addModuleDeps refuse maps.dependencyNames u.path
        (mapGet maps.dependencies u.path) g with
    | error err => simp [hd] at h
    | ok g2 =>
      simp only [hd] at h
      exact ih g2 g1
        (addModuleDeps_origin refuse maps u.path _ (fun _ hx => hx) g g2 hg hd) h

/-! ## The package registry and the package graph -/

theorem addImport_listed (uses : List Use) (module : Use) (hmem : module ∈ uses)
    (localName fullName : Str) (st : DepMaps) (s : Str)
    (h : PackageNamesListed uses st ∧ localName ∈ mapGet st.packagesPerModule module.path) :
    PackageNamesListed uses (addImport localName fullName st s)
    ∧ localName ∈ mapGet (addImport localName fullName st s).packagesPerModule module.path := by
  refine ⟨?_, h.2⟩
  intro e he
  have he2 : e ∈ (st.packageNames.Insert localName fullName).pairs := he
  rcases BiMap.mem_Insert _ _ _ _ he2 with h1 | h1
  · exact ⟨module, hmem, by rw [h1]; exact h.2⟩
  · exact h.1 e h1

theorem addFile_listed (uses : List Use) (module : Use) (hmem : module ∈ uses)
    (localName fullName : Str) (st : DepMaps) (file : GoFile)
    (h : PackageNamesListed uses st ∧ localName ∈ mapGet st.packagesPerModule module.path) :
    PackageNamesListed uses (addFile localName fullName st file)
    ∧ localName ∈ mapGet (addFile localName fullName st file).packagesPerModule module.path := by
  unfold addFile
  exact foldl_invariant
    (fun s : DepMaps => PackageNamesListed uses s
      ∧ localName ∈ mapGet s.packagesPerModule module.path)
    (addImport localName fullName) file.imports
    (fun b a _ hb => addImport_listed uses module hmem localName fullName b a hb) st h

theorem addPackage_listed (uses : List Use) (module : Use) (hmem : module ∈ uses)
    (p1 mp : Str) (st : DepMaps) (entry : Str × List GoFile)
    (h : PackageNamesListed uses st) :
    PackageNamesListed uses (addPackage module.path p1 mp st entry) := by
  unfold addPackage
  refine (foldl_invariant
    (fun s : DepMaps => PackageNamesListed uses s
      ∧ localPackageName p1 entry.1 ∈ mapGet s.packagesPerModule module.path)
    (addFile (localPackageName p1 entry.1) (fullPackageName mp entry.1)) entry.2
    (fun b a _ hb => addFile_listed uses module hmem _ _ b a hb) _ ⟨?_, ?_⟩).1
  · intro e he
    obtain ⟨u, hu, hl⟩ := h e he
    exact ⟨u, hu, mapGet_append_mono _ _ _ _ _ hl⟩
  · show localPackageName p1 entry.1 ∈ mapGet (mapSet st.packagesPerModule module.path
      (mapGet st.packagesPerModule module.path ++ [localPackageName p1 entry.1])) module.path
    rw [mapGet_mapSet_self]
    simp

/-- After `makeDepMaps`, every local path bound in the package registry is one
of the packages listed for some member. -/
theorem makeDepMaps_packageNames (repoPath pwd : Str) (config : IncludedDependenciesConfig)
    (uses : List Use) (maps : DepMaps)
    (h : makeDepMaps repoPath pwd uses config = Except.ok maps) :
    PackageNamesListed uses maps := by
  refine makeDepMapsFrom_invariant repoPath pwd config (PackageNamesListed uses) uses ?_ uses
    (fun _ hu => hu) DepMaps.init maps ?_ h
  · intro st module st1 hmem hst hm
    refine makeDepMapsModule_invariant repoPath pwd config (PackageNamesListed uses)
      module ?_ ?_ st st1 hst hm
    · intro s f hs
      exact hs
    · intro s p1 mp entry _ hs
      exact addPackage_listed uses module hmem p1 mp s entry hs
  · intro e he
    simp [DepMaps.init, BiMap.NewBiMap] at he

theorem addFile_packagesPerModule (localName fullName : Str) (file : GoFile) (st : DepMaps) :
    (addFile localName fullName st file).packagesPerModule = st.packagesPerModule := by
  unfold addFile
  exact foldl_invariant (fun s : DepMaps => s.packagesPerModule = st.packagesPerModule)
    (addImport localName fullName) file.imports
    (fun b a _ hb => by simpa [addImport] using hb) st rfl

theorem addPackage_packagesPerModule (modulePath p1 mp : Str) (st : DepMaps)
    (entry : Str × List GoFile) :
    (addPackage modulePath p1 mp st entry).packagesPerModule
      = mapSet st.packagesPerModule modulePath
          (mapGet st.packagesPerModule modulePath ++ [localPackageName p1 entry.1]) := by
  unfold addPackage
  exact foldl_invariant
    (fun t : DepMaps => t.packagesPerModule
      = mapSet st.packagesPerModule modulePath
          (mapGet st.packagesPerModule modulePath ++ [localPackageName p1 entry.1]))
    (addFile (localPackageName p1 entry.1) (fullPackageName mp entry.1)) entry.2
    (fun b a _ hb => (addFile_packagesPerModule _ _ a b).trans hb) _ rfl

theorem hasPrefix_localPackageName (p1 key : Str) :
    hasPrefix (localPackageName p1 key) p1 = true := by
  unfold localPackageName
  split
  · rename_i h
    rw [← h]
    simpa using hasPrefix_append p1 []
  · exact hasPrefix_append p1 key

/-- After `makeDepMaps`, every package listed for a member path starts with that
path without its first character (`module.Path[1:]`). -/
theorem makeDepMaps_packagesPerModule (repoPath pwd : Str) (config : IncludedDependenciesConfig)
    (uses : List Use) (maps : DepMaps)
    (h : makeDepMaps repoPath pwd uses config = Except.ok maps) :
    PackagesUnderModule maps := by
  refine makeDepMapsFrom_invariant repoPath pwd config PackagesUnderModule uses ?_ uses
    (fun _ hu => hu) DepMaps.init maps ?_ h
  · intro st module st1 _ hst hm
    refine makeDepMapsModule_invariant repoPath pwd config PackagesUnderModule
      module ?_ ?_ st st1 hst hm
    · intro s f hs
      exact hs
    · intro s p1 mp entry hslice hs
      have hp1 : p1 = module.path.drop 1 := by
        unfold sliceFrom at hslice
        split at hslice
        · simpa using hslice.symm
        · exact absurd hslice (by simp)
      intro m l hl
      rw [addPackage_packagesPerModule] at hl
      by_cases hm2 : m = module.path
      · subst hm2
        rw [mapGet_mapSet_self] at hl
        rcases List.mem_append.mp hl with h1 | h1
        · exact hs _ l h1
        · simp only [List.mem_singleton] at h1
          rw [h1, ← hp1]
          exact hasPrefix_localPackageName p1 entry.1
      · rw [mapGet_mapSet_ne _ _ _ _ hm2] at hl
        exact hs m l hl
  · intro m l hl
    simp [DepMaps.init, mapGet] at hl

theorem Graph.DependOn_mono (refuse : Refusal) (g g1 : Graph) (child parent : Str)
    (h : g.DependOn refuse child parent = some g1) :
    ∀ e ∈ g.edges, e ∈ g1.edges := by
  unfold Graph.DependOn at h
  split at h
  · exact absurd h (by simp)
  · split at h
    · simp only [Option.some.injEq] at h
      subst h
      exact fun e he => he
    · simp only [Option.some.injEq] at h
      subst h
      intro e he
      exact List.mem_append_left _ he

theorem addPackageDep_edges (refuse : Refusal) (names : BiMap) (modPackage : Str) (g : Graph)
    (dep : Str) :
    (∀ e ∈ g.edges, e ∈ (addPackageDep refuse names modPackage g dep).edges)
    ∧ ∀ e ∈ (addPackageDep refuse names modPackage g dep).edges,
        e ∈ g.edges ∨ (e.1 = modPackage ∧ names.GetInverse (trimQuotes dep) = some e.2) := by
  unfold addPackageDep
  cases hinv : names.GetInverse (trimQuotes dep) with
  | none => exact ⟨fun e he => he, fun e he => Or.inl he⟩
  | some renamedDep =>
    cases hd : g.DependOn refuse modPackage renamedDep with
    | none =>
      simp only [hd]
      exact ⟨fun e he => he, fun e he => Or.inl he⟩
    | some g1 =>
      simp only [hd]
      refine ⟨Graph.DependOn_mono refuse g g1 _ _ hd, ?_⟩
      intro e he
      rcases Graph.DependOn_edges refuse g g1 _ _ hd e he with h1 | h1
      · exact Or.inl h1
      · subst h1
        exact Or.inr ⟨rfl, rfl⟩

theorem addPackageDeps_edges (refuse : Refusal) (names : BiMap) (modPackage : Str) :
    ∀ (deps : List Str) (g : Graph),
      (∀ e ∈ g.edges, e ∈ (deps.foldl (addPackageDep refuse names modPackage) g).edges)
      ∧ ∀ e ∈ (deps.foldl (addPackageDep refuse names modPackage) g).edges,
          e ∈ g.edges
          ∨ (e.1 = modPackage ∧ ∃ dep ∈ deps, names.GetInverse (trimQuotes dep) = some e.2) := by
  intro deps
  induction deps with
  | nil =>
    intro g
    exact ⟨fun e he => he, fun e he => Or.inl he⟩
  | cons d rest ih =>
    intro g
    simp only [List.foldl_cons]
    have hstep := addPackageDep_edges refuse names modPackage g d
    have hrest := ih (addPackageDep refuse names modPackage g d)
    refine ⟨fun e he => hrest.1 e (hstep.1 e he), ?_⟩
    intro e he
    rcases hrest.2 e he with h1 | ⟨h1, dep, hdep, h2⟩
    · rcases hstep.2 e h1 with h3 | ⟨h3, h4⟩
      · exact Or.inl h3
      · exact Or.inr ⟨h3, d, List.mem_cons_self _ _, h4⟩
    · exact Or.inr ⟨h1, dep, List.mem_cons_of_mem _ hdep, h2⟩

theorem processPackage_inv (refuse : Refusal) (uses : List Use) (maps : DepMaps)
    (st : Graph × GoMap Str) (modPackage : Str)
    (hlisted : ∃ u ∈ uses, modPackage ∈ mapGet maps.packagesPerModule u.path)
    (h : PackagePhaseInv uses maps st) :
    PackagePhaseInv uses maps (processPackage refuse maps st modPackage) := by
  obtain ⟨h1, h2, h3⟩ := h
  have hg : (∀ e ∈ st.1.edges, e ∈ (processPackage refuse maps st modPackage).1.edges)
      ∧ ∀ e ∈ (processPackage refuse maps st modPackage).1.edges,
          PackageEdgeOrigin maps e := by
    unfold processPackage
    cases hget : maps.packageNames.Get modPackage with
    | none => exact ⟨fun e he => he, h1⟩
    | some c =>
      have hfold := addPackageDeps_edges refuse maps.packageNames modPackage
        (mapGet maps.packageDependencies c) st.1
      refine ⟨hfold.1, ?_⟩
      intro e he
      rcases hfold.2 e he with h4 | ⟨h4, dep, hdep, h5⟩
      · exact h1 e h4
      · exact ⟨c, by rw [h4]; exact hget, dep, hdep, h5⟩
  have hpd : (processPackage refuse maps st modPackage).2
      = appendDeps st.2 modPackage
          ((processPackage refuse maps st modPackage).1.Dependencies modPackage) := rfl
  refine ⟨hg.2, ?_, ?_⟩
  · intro k hk
    rw [hpd] at hk
    rcases mem_mapKeys_appendDeps _ _ _ _ hk with ⟨hk1, hne⟩ | hk1
    · subst hk1
      refine ⟨hlisted, ?_⟩
      obtain ⟨t, ht⟩ := List.exists_mem_of_ne_nil _ hne
      exact ⟨t, (Graph.mem_Dependencies _ _ _).mp ht⟩
    · obtain ⟨hl, t, ht⟩ := h2 k hk1
      exact ⟨hl, t, hg.1 _ ht⟩
  · intro k v hv
    rw [hpd] at hv
    by_cases hk : k = modPackage
    · subst hk
      rw [mapGet_appendDeps_self] at hv
      rcases List.mem_append.mp hv with h4 | h4
      · exact hg.1 _ (h3 k v h4)
      · exact (Graph.mem_Dependencies _ _ _).mp h4
    · rw [mapGet_appendDeps_ne _ _ _ hk] at hv
      exact hg.1 _ (h3 k v hv)

theorem buildPackageDeps_inv (refuse : Refusal) (maps : DepMaps) (uses : List Use) :
    PackagePhaseInv uses maps (uses.foldl (processModule refuse maps) (Graph.New, [])) := by
  refine foldl_invariant (PackagePhaseInv uses maps) (processModule refuse maps) uses ?_
    (Graph.New, []) ?_
  · intro st module hmem hst
    unfold processModule
    exact foldl_invariant (PackagePhaseInv uses maps) (processPackage refuse maps)
      (mapGet maps.packagesPerModule module.path)
      (fun b a ha hb => processPackage_inv refuse uses maps b a ⟨module, hmem, ha⟩ hb) st hst
  · refine ⟨?_, ?_, ?_⟩
    · intro e he
      simp [Graph.New] at he
    · intro k hk
      simp [mapKeys] at hk
    · intro k v hv
      simp [mapGet] at hv

theorem getDependencyGraph_ok (refuse : Refusal) (repoPath pwd : Str) (uses : List Use)
    (maps : DepMaps) (out : GoMap Str)
    (hmaps : makeDepMaps repoPath pwd uses bothIncluded = Except.ok maps)
    (hout : getDependencyGraph refuse repoPath ⟨pwd, WorkFile.parsed uses⟩ = Except.ok out) :
    out = buildPackageDeps refuse maps uses := by
  unfold getDependencyGraph at hout
  simp only [hmaps] at hout
  cases hg : buildModuleGraph refuse maps uses Graph.New with
  | error e => simp [hg] at hout
  | ok g =>
    simp only [hg, Except.ok.injEq] at hout
    exact hout.symm

/-! ## Path lemmas -/

theorem splitSlash_ne_nil (s : Str) : splitSlash s ≠ [] := by
  cases s with
  | nil => simp [splitSlash]
  | cons c cs =>
    unfold splitSlash
    split
    · simp
    · split <;> simp

theorem splitSlash_append (a b : Str) :
    splitSlash (a ++ '/' :: b) = splitSlash a ++ splitSlash b := by
  induction a with
  | nil => simp [splitSlash]
  | cons c cs ih =>
    by_cases hc : c = '/'
    · simp [splitSlash, hc, ih]
    · have hne := splitSlash_ne_nil cs
      cases hcs : splitSlash cs with
      | nil => exact absurd hcs hne
      | cons seg rest => simp [splitSlash, hc, ih, hcs]

theorem joinSlash_append_singleton (l : List Str) (x : Str) (hl : l ≠ []) :
    joinSlash (l ++ [x]) = joinSlash l ++ '/' :: x := by
  induction l with
  | nil => exact absurd rfl hl
  | cons s t ih =>
    cases t with
    | nil => simp [joinSlash]
    | cons u rest =>
      have h := ih (by simp)
      simp only [List.cons_append] at h ⊢
      simp [joinSlash, h]

theorem trimPrefix_append (r x : Str) : trimPrefix (r ++ x) r = x := by
  simp [trimPrefix, hasPrefix_append]

theorem hasPrefix_slash_iff (s : Str) : hasPrefix s ['/'] = true ↔ ∃ t, s = '/' :: t := by
  cases s with
  | nil => simp [hasPrefix, List.isPrefixOf]
  | cons c cs =>
    simp only [hasPrefix, List.isPrefixOf, Bool.and_true, beq_iff_eq, List.cons.injEq,
      exists_eq_right']
    exact eq_comm

/-- Cleaning a rooted path followed by `/` and further text resumes the clean-up
of the rooted path on the elements of the further text. -/
theorem filepathClean_rooted_append (r t : Str) (hr : hasPrefix r ['/'] = true) :
    filepathClean (r ++ '/' :: t)
      = '/' :: joinSlash
          ((splitSlash t).foldl (cleanStep true)
            ((splitSlash r).foldl (cleanStep true) [])).reverse := by
  obtain ⟨u, rfl⟩ := (hasPrefix_slash_iff r).mp hr
  have h1 : hasPrefix ('/' :: u ++ '/' :: t) ['/'] = true := by
    simp [hasPrefix, List.isPrefixOf]
  unfold filepathClean
  simp only [h1, if_true]
  rw [splitSlash_append, List.foldl_append]
  simp

theorem filepathClean_rooted (r : Str) (hr : hasPrefix r ['/'] = true) :
    filepathClean r = '/' :: joinSlash ((splitSlash r).foldl (cleanStep true) []).reverse := by
  obtain ⟨u, rfl⟩ := (hasPrefix_slash_iff r).mp hr
  unfold filepathClean
  simp [hr]

theorem filepathJoin_pair (e x : Str) (he : e ≠ []) :
    filepathJoin [e, x] = filepathClean (e ++ '/' :: x) := by
  simp [filepathJoin, he, joinSlash]

/-- For a clean rooted path other than `/`, joining the element `name` (through
`./name`) appends `/name`. -/
theorem filepathJoin_clean_dot (r name : Str) (hr : hasPrefix r ['/'] = true)
    (hclean : filepathClean r = r) (hroot : r ≠ ['/'])
    (h1 : name ≠ []) (h2 : name ≠ ['.']) (h3 : name ≠ ['.', '.'])
    (hsplit : splitSlash name = [name]) :
    filepathJoin [r, '.' :: '/' :: name] = r ++ '/' :: name := by
  have hne : r ≠ [] := by
    obtain ⟨u, rfl⟩ := (hasPrefix_slash_iff r).mp hr
    simp
  rw [filepathJoin_pair _ _ hne, filepathClean_rooted_append _ _ hr]
  have hc := filepathClean_rooted r hr
  rw [hclean] at hc
  have hS : ((splitSlash r).foldl (cleanStep true) []).reverse ≠ [] := by
    intro h
    rw [h] at hc
    exact hroot (by simpa [joinSlash] using hc)
  have hsp : splitSlash ('.' :: '/' :: name) = ['.'] :: [name] := by
    have := splitSlash_append ['.'] name
    simp only [List.cons_append, List.nil_append] at this
    rw [this, hsplit]
    simp [splitSlash]
  rw [hsp]
  simp only [List.foldl_cons, List.foldl_nil]
  have e1 : ∀ st, cleanStep true st ['.'] = st := by
    intro st; simp [cleanStep]
  have e2 : ∀ st, cleanStep true st name = name :: st := by
    intro st; simp [cleanStep, h1, h2, h3]
  rw [e1, e2, List.reverse_cons, joinSlash_append_singleton _ _ hS]
  conv_rhs => rw [hc]
  simp

/-! ## `convertRelPath` -/

/-- C5 (amended): for every absolute workspace root in clean form other than `/`,
`convertRelPath` applied to the declaring module path `./a` and the dependency
string `./sibling` returns `./a/sibling`: the dependency is resolved against the
declaring module's directory. -/
theorem C5_convertRelPath_sibling (repoPath : Str)
    (habs : hasPrefix repoPath "/".toList = true)
    (hclean : filepathClean repoPath = repoPath)
    (hroot : repoPath ≠ "/".toList) :
    convertRelPath repoPath "./a".toList "./sibling".toList = "./a/sibling".toList := by
  have ha : filepathJoin [repoPath, "./a".toList] = repoPath ++ "/a".toList :=
    filepathJoin_clean_dot repoPath "a".toList habs hclean hroot
      (by decide) (by decide) (by decide) (by decide)
  obtain ⟨u, hu⟩ := (hasPrefix_slash_iff repoPath).mp habs
  have habs2 : hasPrefix (repoPath ++ "/a".toList) ['/'] = true := by
    rw [hu]; simp [hasPrefix, List.isPrefixOf]
  have hb : filepathJoin [repoPath ++ "/a".toList, "./sibling".toList]
      = repoPath ++ "/a/sibling".toList := by
    rw [filepathJoin_pair _ _ (by rw [hu]; simp)]
    have hassoc : repoPath ++ "/a".toList ++ '/' :: "./sibling".toList
        = repoPath ++ '/' :: "a/./sibling".toList := by
      simp
    rw [hassoc, filepathClean_rooted_append _ _ habs]
    have hc := filepathClean_rooted repoPath habs
    rw [hclean] at hc
    have hS : ((splitSlash repoPath).foldl (cleanStep true) []).reverse ≠ [] := by
      intro h
      rw [h] at hc
      exact hroot (by simpa [joinSlash] using hc)
    have hsp : splitSlash "a/./sibling".toList = ["a".toList, ".".toList, "sibling".toList] := by
      decide
    rw [hsp]
    simp only [List.foldl_cons, List.foldl_nil]
    have e1 : ∀ st, cleanStep true st "a".toList = "a".toList :: st := by
      intro st; simp [cleanStep]
    have e2 : ∀ st, cleanStep true st ".".toList = st := by
      intro st; simp [cleanStep]
    have e3 : ∀ st, cleanStep true st "sibling".toList = "sibling".toList :: st := by
      intro st; simp [cleanStep]
    rw [e1, e2, e3, List.reverse_cons, List.reverse_cons, List.append_assoc]
    have hj : ∀ (l : List Str) (x y : Str), l ≠ [] →
        joinSlash (l ++ ([x] ++ [y])) = joinSlash l ++ '/' :: x ++ '/' :: y := by
      intro l x y hl
      rw [← List.append_assoc, joinSlash_append_singleton _ _ (by simp [hl]),
        joinSlash_append_singleton _ _ hl]
    rw [hj _ _ _ hS]
    conv_rhs => rw [hc]
    simp
  have hrel : isRelativeDep "./sibling".toList = true := by decide
  unfold convertRelPath
  simp only [hrel, Bool.not_true, Bool.false_eq_true, if_false]
  rw [ha, hb, trimPrefix_append]
  decide

/-- C5, witness at the root `/ws`. -/
theorem C5_convertRelPath_sibling_witness :
    convertRelPath "/ws".toList "./a".toList "./sibling".toList = "./a/sibling".toList :=
  C5_convertRelPath_sibling "/ws".toList (by decide) (by decide) (by decide)

/-- C5, counterexample: at the root `/ws` the result is `./a/sibling`, not
`./sibling`; at the root `/` and at the unclean root `/ws/` it is `.a/sibling`. -/
theorem C5_counterexample :
    convertRelPath "/ws".toList "./a".toList "./sibling".toList ≠ "./sibling".toList
    ∧ convertRelPath "/ws".toList "./a".toList "./sibling".toList = "./a/sibling".toList
    ∧ convertRelPath "/".toList "./a".toList "./sibling".toList = ".a/sibling".toList
    ∧ convertRelPath "/ws/".toList "./a".toList "./sibling".toList = ".a/sibling".toList := by
  decide

/-- C6: from module `./a` of the root `/home/me/proj` the dependency
`../../proj-tools`, which starts with `../`, is returned as `.-tools`, and from
module `./a` of the root `/ws` the dependency `../../wsx` is returned as `.x`:
the root is stripped as a textual prefix of the sibling directory's name, and
the result is neither `.` nor a string that starts with `./` or `../`. -/
theorem C6_textual_prefix_strip :
    (isRelativeDep "../../proj-tools".toList = true
      ∧ filepathJoin [filepathJoin ["/home/me/proj".toList, "./a".toList],
          "../../proj-tools".toList] = "/home/me/proj-tools".toList
      ∧ convertRelPath "/home/me/proj".toList "./a".toList "../../proj-tools".toList
          = ".-tools".toList
      ∧ convertRelPath "/home/me/proj".toList "./a".toList "../../proj-tools".toList
          ≠ ".".toList
      ∧ isRelativeDep
          (convertRelPath "/home/me/proj".toList "./a".toList "../../proj-tools".toList)
          = false)
    ∧ (isRelativeDep "../../wsx".toList = true
      ∧ convertRelPath "/ws".toList "./a".toList "../../wsx".toList = ".x".toList
      ∧ convertRelPath "/ws".toList "./a".toList "../../wsx".toList ≠ ".".toList
      ∧ isRelativeDep (convertRelPath "/ws".toList "./a".toList "../../wsx".toList)
          = false) := by
  decide

/-! ## The module graph of `getDependencyGraph` -/

/-- C4 (amended): for every workspace and every member `m`, every dependency
identity recorded for `m` in the module graph comes from one of `m`'s normalised
required or replacement dependencies `dep`, and is either the path of the
workspace member whose canonical name is `dep`, or `dep` itself when `dep` is in
relative form (starts with `./` or `../`), whether or not it is the path of a
member; a dependency that is neither never appears as an edge target. -/
theorem C4_module_graph_targets (refuse : Refusal) (repoPath pwd : Str) (uses : List Use)
    (maps : DepMaps) (g : Graph)
    (hmaps : makeDepMaps repoPath pwd uses bothIncluded = Except.ok maps)
    (hg : buildModuleGraph refuse maps uses Graph.New = Except.ok g)
    (m t : Str) (ht : t ∈ g.Dependencies m) :
    ∃ dep ∈ mapGet maps.dependencies m,
      (maps.dependencyNames.GetInverse dep = some t ∧ ∃ u ∈ uses, u.path = t)
      ∨ (isRelativeDep dep = true ∧ t = dep) := by
  have hedge := (Graph.mem_Dependencies g m t).mp ht
  have horigin := buildModuleGraph_origin refuse maps uses Graph.New g
    (fun e he => by simp [Graph.New] at he) hg (m, t) hedge
  obtain ⟨dep, hdep, hcase⟩ := horigin
  refine ⟨dep, hdep, ?_⟩
  rcases hcase with h1 | h1
  · left
    refine ⟨h1, ?_⟩
    have hpair := BiMap.GetInverse_mem _ _ _ h1
    exact makeDepMaps_dependencyNames repoPath pwd bothIncluded uses maps hmaps _ hpair
  · exact Or.inr h1

/-- C4, witness: in the scenario workspace the module graph is `./svc → ./lib`,
an edge whose target is the member bound to `example.com/lib`. -/
theorem C4_module_graph_targets_witness :
    ∃ dep ∈ mapGet exampleMaps.dependencies "./svc".toList,
      (exampleMaps.dependencyNames.GetInverse dep = some "./lib".toList
        ∧ ∃ u ∈ [svcMember, libMember], u.path = "./lib".toList)
      ∨ (isRelativeDep dep = true ∧ "./lib".toList = dep) :=
  C4_module_graph_targets refuseSelfLoop "/ws".toList "/ws".toList [svcMember, libMember]
    exampleMaps ⟨[("./svc".toList, "./lib".toList)]⟩ (by decide) (by decide)
    "./svc".toList "./lib".toList (by decide)

/-- C4, counterexample: member `./a` replaces a module by the directory
`../notlisted`, which is not listed in `go.work`; the module graph records the
edge `./a → ./notlisted`, whose target is not the path of any member. -/
theorem C4_counterexample :
    moduleGraphOf refuseSelfLoop "/ws".toList "/ws".toList [replaceMember]
      = Except.ok ⟨[("./a".toList, "./notlisted".toList)]⟩
    ∧ (moduleGraphOf refuseSelfLoop "/ws".toList "/ws".toList [replaceMember]).map
        (fun g => (g.Dependencies "./a".toList, collectModuleDeps g [replaceMember]))
      = Except.ok (["./notlisted".toList], [("./a".toList, ["./notlisted".toList])])
    ∧ "./notlisted".toList ∉ [replaceMember].map Use.path := by
  decide

/-! ## The package map of `getDependencyGraph` -/

theorem importsOnlyExternal_no_origin (maps : DepMaps) (modPackage t : Str)
    (h : importsOnlyExternal maps modPackage = true) :
    ¬ PackageEdgeOrigin maps (modPackage, t) := by
  rintro ⟨c, hc, dep, hdep, hinv⟩
  unfold importsOnlyExternal at h
  simp only at hc hinv
  rw [hc] at h
  simp only [List.all_eq_true] at h
  have := h dep hdep
  rw [hinv] at this
  simp at this

/-- C1 (amended): for every workspace, the map returned by `getDependencyGraph`
is keyed by local package paths (a path `makeDepMaps` lists for a member, which
starts with `module.Path[1:]`) and each value lists local package paths of
registered workspace-local packages, each of them bound to an import literal
recorded for the key; in particular, for the workspace with members `./svc` and
`./lib`, where `./svc/handler` imports `example.com/lib/util` and the file of
`./lib/util` has an import of its own, the returned map is the single entry
`/svc/handler → [/lib/util]`. -/
theorem C1_map_keyed_by_local_paths (refuse : Refusal) (repoPath pwd : Str) (uses : List Use)
    (maps : DepMaps) (out : GoMap Str)
    (hmaps : makeDepMaps repoPath pwd uses bothIncluded = Except.ok maps)
    (hout : getDependencyGraph refuse repoPath ⟨pwd, WorkFile.parsed uses⟩ = Except.ok out)
    (k : Str) (hk : k ∈ mapKeys out) :
    (∃ u ∈ uses, k ∈ mapGet maps.packagesPerModule u.path
        ∧ hasPrefix k (u.path.drop 1) = true)
    ∧ (∀ v ∈ mapGet out k,
        (∃ u ∈ uses, v ∈ mapGet maps.packagesPerModule u.path
            ∧ hasPrefix v (u.path.drop 1) = true)
        ∧ ∃ c, maps.packageNames.Get k = some c
            ∧ ∃ dep ∈ mapGet maps.packageDependencies c,
                maps.packageNames.GetInverse (trimQuotes dep) = some v)
    ∧ getDependencyGraph refuseSelfLoop "/ws".toList exampleWorkspace
        = Except.ok [("/svc/handler".toList, ["/lib/util".toList])] := by
  have hout2 := getDependencyGraph_ok refuse repoPath pwd uses maps out hmaps hout
  obtain ⟨h1, h2, h3⟩ := buildPackageDeps_inv refuse maps uses
  have hlisted := makeDepMaps_packageNames repoPath pwd bothIncluded uses maps hmaps
  have hshape := makeDepMaps_packagesPerModule repoPath pwd bothIncluded uses maps hmaps
  subst hout2
  refine ⟨?_, ?_, by decide⟩
  · obtain ⟨u, hu, hl⟩ := (h2 k hk).1
    exact ⟨u, hu, hl, hshape _ _ hl⟩
  · intro v hv
    have horigin := h1 _ (h3 k v hv)
    refine ⟨?_, horigin⟩
    obtain ⟨c, _, dep, _, hinv⟩ := horigin
    obtain ⟨u, hu, hl⟩ := hlisted _ (BiMap.GetInverse_mem _ _ _ hinv)
    exact ⟨u, hu, hl, hshape _ _ hl⟩

/-- C1, witness: the scenario workspace, at the key `/svc/handler`. -/
theorem C1_map_keyed_by_local_paths_witness :
    "/svc/handler".toList ∈ mapKeys [("/svc/handler".toList, ["/lib/util".toList])]
    ∧ (∃ u ∈ [svcMember, libMember],
        "/svc/handler".toList ∈ mapGet exampleMaps.packagesPerModule u.path
          ∧ hasPrefix "/svc/handler".toList (u.path.drop 1) = true) :=
  ⟨by decide,
    (C1_map_keyed_by_local_paths refuseSelfLoop "/ws".toList "/ws".toList
      [svcMember, libMember] exampleMaps [("/svc/handler".toList, ["/lib/util".toList])]
      (by decide) (by decide) "/svc/handler".toList (by decide)).1⟩

/-- C1, counterexample: in the scenario workspace the returned map is
`/svc/handler → [/lib/util]`; it has no key `example.com/svc/handler` and no
value `example.com/lib/util`. -/
theorem C1_counterexample :
    getDependencyGraph refuseSelfLoop "/ws".toList exampleWorkspace
      = Except.ok [("/svc/handler".toList, ["/lib/util".toList])]
    ∧ (getDependencyGraph refuseSelfLoop "/ws".toList exampleWorkspace).map
        (fun out => (decide ("example.com/svc/handler".toList ∈ mapKeys out),
          mapGet out "example.com/svc/handler".toList))
      = Except.ok (false, [])
    ∧ ("example.com/svc/handler".toList, ["example.com/lib/util".toList])
        ∉ [("/svc/handler".toList, ["/lib/util".toList])] := by
  decide

/-- C3 (amended): for every workspace member all of whose packages import only
external (non-workspace) packages, no package of that member is a key of the map
returned by `getDependencyGraph`; looking such a package up yields the empty
list. -/
theorem C3_external_only_packages_have_no_key (refuse : Refusal) (repoPath pwd : Str)
    (uses : List Use) (maps : DepMaps) (out : GoMap Str)
    (hmaps : makeDepMaps repoPath pwd uses bothIncluded = Except.ok maps)
    (hout : getDependencyGraph refuse repoPath ⟨pwd, WorkFile.parsed uses⟩ = Except.ok out)
    (module : Use) (hmem : module ∈ uses)
    (hext : ∀ q ∈ mapGet maps.packagesPerModule module.path, importsOnlyExternal maps q = true)
    (p : Str) (hp : p ∈ mapGet maps.packagesPerModule module.path) :
    p ∉ mapKeys out ∧ mapGet out p = [] := by
  have hout2 := getDependencyGraph_ok refuse repoPath pwd uses maps out hmaps hout
  obtain ⟨h1, h2, _⟩ := buildPackageDeps_inv refuse maps uses
  subst hout2
  have hmem2 : ∃ u ∈ uses, p ∈ mapGet maps.packagesPerModule u.path := ⟨module, hmem, hp⟩
  have hkey : p ∉ mapKeys (buildPackageDeps refuse maps uses) := by
    intro hk
    obtain ⟨_, t, ht⟩ := h2 p hk
    exact importsOnlyExternal_no_origin maps p t (hext p hp) (h1 _ ht)
  exact ⟨hkey, mapGet_of_not_mem_mapKeys _ _ hkey⟩

/-- C3, witness: in the scenario workspace member `./lib` imports only `fmt`, and
its package `/lib/util` is not a key of the returned map. -/
theorem C3_external_only_packages_have_no_key_witness :
    "/lib/util".toList ∉ mapKeys [("/svc/handler".toList, ["/lib/util".toList])]
    ∧ mapGet [("/svc/handler".toList, ["/lib/util".toList])] "/lib/util".toList = [] :=
  C3_external_only_packages_have_no_key refuseSelfLoop "/ws".toList "/ws".toList
    [svcMember, libMember] exampleMaps [("/svc/handler".toList, ["/lib/util".toList])]
    (by decide) (by decide) libMember
    (List.mem_cons_of_mem _ (List.mem_cons_self _ _)) (by decide)
    "/lib/util".toList (by decide)

/-- C3, counterexample: in the scenario workspace member `./lib` has the single
package `/lib/util` (canonical name `example.com/lib/util`), whose file imports
only `fmt`; the returned map has the single key `/svc/handler`, so the package of
`./lib` is missing from it under either name. -/
theorem C3_counterexample :
    (makeDepMaps "/ws".toList "/ws".toList [svcMember, libMember] bothIncluded).map
        (fun maps => (mapGet maps.packagesPerModule "./lib".toList,
          maps.packageNames.Get "/lib/util".toList,
          mapGet maps.packageDependencies "example.com/lib/util".toList, importsOnlyExternal
            maps "/lib/util".toList))
      = Except.ok (["/lib/util".toList], some "example.com/lib/util".toList,
          ["\"fmt\"".toList], true)
    ∧ (getDependencyGraph refuseSelfLoop "/ws".toList exampleWorkspace).map mapKeys
      = Except.ok ["/svc/handler".toList]
    ∧ "/lib/util".toList ∉ ["/svc/handler".toList]
    ∧ "example.com/lib/util".toList ∉ ["/svc/handler".toList] := by
  decide

end Detector
